import Mathlib

/-!
Verification of the interactive word-wrapping demo
(`examples/interactive.rs` of the textwrap repository).

The file embeds the demo's render/update loop in Lean:

* the post-processing of the raw wrap result inside `draw_text`
  (padding with an empty line for empty output or a trailing newline);
* the margin / row layout computed by `draw_margins` and `draw_text`,
  modelled as a list of abstract draw instructions, with the source's
  `as u16` casts and `u16` additions modelled as arithmetic modulo 2^16
  (wrapping, i.e. release-profile semantics);
* the key-event state machine of `unix_only::main`, including the
  cycling splitter iterator, modelled as an explicit step function.

The external wrap algorithm (`textwrap::wrap` via `Wrapper::wrap`) is not
part of the sources under verification; it is treated as an opaque
function parameter, so every theorem quantifies over its possible
results.
-/

namespace Interactive

/-- The modulus of `u16` arithmetic; `draw_text` casts `options.width`
and `lines.len()` to `u16` before doing row/column arithmetic. -/
def U16 : Nat := 65536

/-- Wrapping `u16` addition, the release-profile semantics of `a + b`
on `u16` operands in the source. -/
def addU16 (a b : Nat) : Nat := (a + b) % U16

/-- Wrapping `u16` subtraction of 1, used for `col - 1` in
`draw_margins` (the call site always passes `col = 3`). -/
def subOneU16 (a : Nat) : Nat := (a + U16 - 1) % U16

/-- The value of `usize::MAX` on a 64-bit target. -/
def USIZE_MAX : Nat := 2 ^ 64 - 1

/-- Models `usize::saturating_sub` (on `Nat`, subtraction already
saturates at 0). -/
def saturating_sub (a b : Nat) : Nat := a - b

/-- Models `usize::saturating_add`, saturating at `USIZE_MAX`. -/
def saturating_add (a b : Nat) : Nat := min (a + b) USIZE_MAX

/-- Models Rust's `str::ends_with('\n')`: the string's last character
is a newline. -/
def endsWithNewline (s : String) : Bool := s.data.getLast? = some '\n'

/-- Models the post-processing of the raw wrap result inside
`draw_text` (interactive.rs lines 104-117): if the result is empty,
push one empty line (a place for the cursor); if the last line ends
with a newline, push one extra empty line (so the cursor lands on a
fresh line). Otherwise the result is returned unchanged. -/
def wrapAdapter (raw : List String) : List String :=
  match raw.getLast? with
  | some line => if endsWithNewline line then raw ++ [""] else raw
  | none => raw ++ [""]

lemma wrapAdapter_nil : wrapAdapter [] = [""] := rfl

lemma wrapAdapter_ne_nil (raw : List String) : wrapAdapter raw ≠ [] := by
  rcases List.eq_nil_or_concat raw with h | ⟨l, a, h⟩
  · subst h
    simp [wrapAdapter]
  · subst h
    unfold wrapAdapter
    rw [List.concat_eq_append, List.getLast?_concat]
    split <;> first
      | (split <;> simp)
      | simp

lemma wrapAdapter_of_getLast (raw : List String) (line : String)
    (h : raw.getLast? = some line) :
    wrapAdapter raw = if endsWithNewline line then raw ++ [""] else raw := by
  unfold wrapAdapter
  rw [h]

/-- A constant stand-in for the external wrap algorithm, used to
instantiate theorems that quantify over it. -/
def constWrap (out : List String) : Nat → Bool → Nat → List Char → List String :=
  fun _ _ _ _ => out

/-- C1: for every text, wrap configuration and splitter (hence for
every raw result the external wrap algorithm may produce), the line
sequence the adapter hands to the renderer is non-empty, and when the
raw result is the empty sequence exactly one empty line is appended. -/
theorem C1_adapter_nonempty
    (wrapAlg : Nat → Bool → Nat → List Char → List String)
    (width : Nat) (bw : Bool) (spl : Nat) (text : List Char) :
    wrapAdapter (wrapAlg width bw spl text) ≠ [] ∧
      (wrapAlg width bw spl text = [] →
        wrapAdapter (wrapAlg width bw spl text) = [""]) := by
  refine ⟨wrapAdapter_ne_nil _, fun h => ?_⟩
  rw [h, wrapAdapter_nil]

theorem C1_adapter_nonempty_w :
    wrapAdapter (constWrap [] 0 false 0 []) ≠ [] ∧
      (constWrap [] 0 false 0 [] = [] →
        wrapAdapter (constWrap [] 0 false 0 []) = [""]) :=
  C1_adapter_nonempty (constWrap []) 0 false 0 []

/-- C2: when the raw wrap result is non-empty and its last line ends
with a newline, the adapter appends exactly one empty line at the end
(so the returned sequence is one element longer); when the last line
does not end with a newline, the raw result is returned unchanged. -/
theorem C2_trailing_newline_pad
    (wrapAlg : Nat → Bool → Nat → List Char → List String)
    (width : Nat) (bw : Bool) (spl : Nat) (text : List Char) (line : String)
    (h : (wrapAlg width bw spl text).getLast? = some line) :
    (endsWithNewline line = true →
        wrapAdapter (wrapAlg width bw spl text) = wrapAlg width bw spl text ++ [""] ∧
        (wrapAdapter (wrapAlg width bw spl text)).length =
          (wrapAlg width bw spl text).length + 1) ∧
      (endsWithNewline line = false →
        wrapAdapter (wrapAlg width bw spl text) = wrapAlg width bw spl text) := by
  rw [wrapAdapter_of_getLast _ _ h]
  constructor
  · intro hnl
    rw [hnl]
    simp
  · intro hnl
    rw [hnl]
    simp

theorem C2_trailing_newline_pad_w :
    (constWrap ["a\n"] 0 false 0 []).getLast? = some "a\n" ∧
      ((endsWithNewline "a\n" = true →
          wrapAdapter (constWrap ["a\n"] 0 false 0 []) =
            constWrap ["a\n"] 0 false 0 [] ++ [""] ∧
          (wrapAdapter (constWrap ["a\n"] 0 false 0 [])).length =
            (constWrap ["a\n"] 0 false 0 []).length + 1) ∧
        (endsWithNewline "a\n" = false →
          wrapAdapter (constWrap ["a\n"] 0 false 0 []) =
            constWrap ["a\n"] 0 false 0 [])) :=
  ⟨rfl, C2_trailing_newline_pad (constWrap ["a\n"]) 0 false 0 [] "a\n" rfl⟩

/-- Abstract draw instruction issued against the terminal surface:
clearing the screen, writing a string at (row, column), or writing a
single highlighted margin glyph at (row, column). Styling escape
sequences are not modelled; rows and columns are the 1-based
coordinates passed to the cursor-positioning call. -/
inductive Instr where
  | clear : Instr
  | text (row col : Nat) (s : String) : Instr
  | margin (row col : Nat) (g : Char) : Instr
deriving DecidableEq

/-- Row of an instruction (0 for the screen-clear instruction, which
has no position). -/
def Instr.row : Instr → Nat
  | .clear => 0
  | .text r _ _ => r
  | .margin r _ _ => r

/-- Models `draw_margins` (interactive.rs lines 27-53): one glyph at
column `col - 1` and one at column `col + line_width`, both on `row`.
All operands are `u16` at this point, so the arithmetic wraps. -/
def draw_margins (row col line_width : Nat) (left right : Char) : List Instr :=
  [Instr.margin row (subOneU16 col) left,
   Instr.margin row (addU16 col line_width) right]

/-- Models the per-line loop of `draw_text` (interactive.rs lines
127-131): for each wrapped line, vertical margin glyphs via
`draw_margins`, then the line's text at `(row, col)`, then
`row += 1` (a `u16` increment). -/
def drawLines (row col w16 : Nat) : List String → List Instr
  | [] => []
  | line :: rest =>
      draw_margins row col w16 '│' '│' ++ [Instr.text row col line]
        ++ drawLines (addU16 row 1) col w16 rest

/-- Models the layout part of `draw_text` (interactive.rs lines
55-134) applied to an already-computed wrapped line sequence: clear
the screen, write the settings banner on rows 1-4 at column 3, then
(after the `row += 2`) draw the upper margin rule on row 6, the lower
margin rule on row `6 + lines.len() + 1` (computed in `u16`), and the
wrapped lines starting on row 7. The width is cast to `u16`
(`options.width as u16`), as is the line count. -/
def draw_text_layout (width : Nat) (bw : Bool) (label : String)
    (lines : List String) : List Instr :=
  [Instr.clear,
   Instr.text 1 3 "Settings:",
   Instr.text 2 3 ("- width: " ++ toString width ++ " (use ← and → to change)"),
   Instr.text 3 3 ("- break_words: " ++ toString bw ++ " (toggle with Ctrl-b)"),
   Instr.text 4 3 ("- splitter: " ++ label ++ " (cycle with Ctrl-s)")]
    ++ draw_margins 6 3 (width % U16) '┌' '┐'
    ++ draw_margins (addU16 (addU16 6 (lines.length % U16)) 1) 3 (width % U16) '└' '┘'
    ++ drawLines (addU16 6 1) 3 (width % U16) lines

lemma drawLines_cons (row col w16 : Nat) (line : String) (rest : List String) :
    drawLines row col w16 (line :: rest) =
      draw_margins row col w16 '│' '│' ++ [Instr.text row col line]
        ++ drawLines (addU16 row 1) col w16 rest := rfl

lemma draw_margins_mem_col (row col lw r c : Nat) (g left right : Char)
    (h : Instr.margin r c g ∈ draw_margins row col lw left right) :
    c = subOneU16 col ∨ c = addU16 col lw := by
  simp only [draw_margins, List.mem_cons, List.mem_singleton, List.not_mem_nil,
    or_false] at h
  rcases h with h | h
  · rcases (Instr.margin.injEq _ _ _ _ _ _).mp h with ⟨_, hc, _⟩
    exact Or.inl hc
  · rcases (Instr.margin.injEq _ _ _ _ _ _).mp h with ⟨_, hc, _⟩
    exact Or.inr hc

lemma drawLines_margin_cols (col w16 : Nat) (ls : List String) :
    ∀ (row r c : Nat) (g : Char),
      Instr.margin r c g ∈ drawLines row col w16 ls →
      c = subOneU16 col ∨ c = addU16 col w16 := by
  induction ls with
  | nil =>
    intro row r c g h
    simp [drawLines] at h
  | cons line rest ih =>
    intro row r c g h
    rw [drawLines_cons] at h
    rcases List.mem_append.mp h with h1 | h2
    · rcases List.mem_append.mp h1 with h3 | h4
      · exact draw_margins_mem_col _ _ _ _ _ _ _ _ h3
      · simp at h4
    · exact ih _ r c g h2

lemma drawLines_mem (col w16 : Nat) (ls : List String) :
    ∀ (row i : Nat) (hi : i < ls.length), ∃ r,
      Instr.margin r (subOneU16 col) '│' ∈ drawLines row col w16 ls ∧
      Instr.margin r (addU16 col w16) '│' ∈ drawLines row col w16 ls ∧
      Instr.text r col (ls.get ⟨i, hi⟩) ∈ drawLines row col w16 ls := by
  induction ls with
  | nil =>
    intro row i hi
    simp at hi
  | cons line rest ih =>
    intro row i hi
    cases i with
    | zero =>
      refine ⟨row, ?_, ?_, ?_⟩ <;> rw [drawLines_cons] <;>
        simp [draw_margins]
    | succ i =>
      obtain ⟨r, h1, h2, h3⟩ := ih (addU16 row 1) i (Nat.lt_of_succ_lt_succ hi)
      refine ⟨r, ?_, ?_, ?_⟩ <;> rw [drawLines_cons]
      · exact List.mem_append.mpr (Or.inr h1)
      · exact List.mem_append.mpr (Or.inr h2)
      · exact List.mem_append.mpr (Or.inr h3)

lemma subOneU16_three : subOneU16 3 = 2 := by decide

lemma mod_U16_eq {a : Nat} (h : a < U16) : a % U16 = a := Nat.mod_eq_of_lt h

lemma addU16_eq {a b : Nat} (h : a + b < U16) : addU16 a b = a + b :=
  Nat.mod_eq_of_lt h

lemma addU16_lt (a b : Nat) : addU16 a b < U16 :=
  Nat.mod_lt _ (by decide)

/-- C3 (amended): provided `3 + width < 2^16` (so that the `as u16`
cast and the `u16` column addition in `draw_margins` do not wrap),
every margin glyph is placed at column 2 = (text column 3) - 1 or at
column 3 + width, and every wrapped line gets a left and a right
vertical margin glyph at exactly those two columns on its own row,
regardless of the line's content. For larger widths the cast wraps,
see the counterexample. -/
theorem C3_margin_columns (width : Nat) (bw : Bool) (label : String)
    (lines : List String) (hw : 3 + width < U16) :
    (∀ (r c : Nat) (g : Char),
        Instr.margin r c g ∈ draw_text_layout width bw label lines →
        c = 2 ∨ c = 3 + width) ∧
    (∀ (i : Nat) (hi : i < lines.length), ∃ r,
        Instr.margin r 2 '│' ∈ draw_text_layout width bw label lines ∧
        Instr.margin r (3 + width) '│' ∈ draw_text_layout width bw label lines ∧
        Instr.text r 3 (lines.get ⟨i, hi⟩) ∈
          draw_text_layout width bw label lines) := by
  have hWlt : width < U16 := lt_of_le_of_lt (Nat.le_add_left _ _) hw
  have hw16 : width % U16 = width := mod_U16_eq hWlt
  have hcol : addU16 3 (width % U16) = 3 + width := by
    rw [hw16]
    exact addU16_eq hw
  constructor
  · intro r c g h
    unfold draw_text_layout at h
    rcases List.mem_append.mp h with h1 | hdl
    · rcases List.mem_append.mp h1 with h2 | hlow
      · rcases List.mem_append.mp h2 with hban | hup
        · simp at hban
        · rcases draw_margins_mem_col _ _ _ _ _ _ _ _ hup with hc | hc
          · exact Or.inl (hc.trans subOneU16_three)
          · exact Or.inr (hc.trans hcol)
      · rcases draw_margins_mem_col _ _ _ _ _ _ _ _ hlow with hc | hc
        · exact Or.inl (hc.trans subOneU16_three)
        · exact Or.inr (hc.trans hcol)
    · rcases drawLines_margin_cols 3 (width % U16) lines _ r c g hdl with hc | hc
      · exact Or.inl (hc.trans subOneU16_three)
      · exact Or.inr (hc.trans hcol)
  · intro i hi
    obtain ⟨r, h1, h2, h3⟩ := drawLines_mem 3 (width % U16) lines (addU16 6 1) i hi
    rw [subOneU16_three] at h1
    rw [hcol] at h2
    refine ⟨r, ?_, ?_, ?_⟩ <;> unfold draw_text_layout
    · exact List.mem_append.mpr (Or.inr h1)
    · exact List.mem_append.mpr (Or.inr h2)
    · exact List.mem_append.mpr (Or.inr h3)

theorem C3_margin_columns_w :
    (∀ (r c : Nat) (g : Char),
        Instr.margin r c g ∈ draw_text_layout 5 false "HyphenSplitter" ["ab"] →
        c = 2 ∨ c = 3 + 5) ∧
    (∀ (i : Nat) (hi : i < (["ab"] : List String).length), ∃ r,
        Instr.margin r 2 '│' ∈ draw_text_layout 5 false "HyphenSplitter" ["ab"] ∧
        Instr.margin r (3 + 5) '│' ∈ draw_text_layout 5 false "HyphenSplitter" ["ab"] ∧
        Instr.text r 3 ((["ab"] : List String).get ⟨i, hi⟩) ∈
          draw_text_layout 5 false "HyphenSplitter" ["ab"]) :=
  C3_margin_columns 5 false "HyphenSplitter" ["ab"] (by decide)

/-- Counterexample to C3 as stated: at width 65536 (reachable with the
increase-width key, since the width is a saturating `usize`), the
`options.width as u16` cast in `draw_text` truncates the width to 0,
so the right margin glyph of the upper rule lands on column 3 + 0 = 3
and no glyph at all is placed at the claimed column 3 + 65536. -/
theorem C3_margin_columns_cex :
    Instr.margin 6 3 '┐' ∈ draw_text_layout 65536 false "HyphenSplitter" ["a"] ∧
      Instr.margin 6 (3 + 65536) '┐' ∉
        draw_text_layout 65536 false "HyphenSplitter" ["a"] := by
  constructor
  · unfold draw_text_layout
    refine List.mem_append.mpr (Or.inl (List.mem_append.mpr
      (Or.inl (List.mem_append.mpr (Or.inr ?_)))))
    have h1 : (65536 : Nat) % U16 = 0 := by decide
    have h2 : addU16 3 0 = 3 := by decide
    rw [h1]
    simp only [draw_margins, List.mem_cons, List.not_mem_nil, or_false]
    refine Or.inr ?_
    rw [h2]
  · intro h
    unfold draw_text_layout at h
    rcases List.mem_append.mp h with h1 | hdl
    · rcases List.mem_append.mp h1 with h2 | hlow
      · rcases List.mem_append.mp h2 with hban | hup
        · simp at hban
        · rcases draw_margins_mem_col _ _ _ _ _ _ _ _ hup with hc | hc <;> revert hc <;> decide
      · rcases draw_margins_mem_col _ _ _ _ _ _ _ _ hlow with hc | hc <;> revert hc <;> decide
    · rcases drawLines_margin_cols _ _ _ _ _ _ _ hdl with hc | hc <;> revert hc <;> decide

lemma drawLines_mem_row (col w16 : Nat) (ls : List String) :
    ∀ (row i : Nat) (hi : i < ls.length), row + i < U16 →
      Instr.text (row + i) col (ls.get ⟨i, hi⟩) ∈ drawLines row col w16 ls := by
  induction ls with
  | nil =>
    intro row i hi _
    simp at hi
  | cons line rest ih =>
    intro row i hi hlt
    cases i with
    | zero =>
      rw [drawLines_cons]
      simp
    | succ i =>
      have hrow1 : addU16 row 1 = row + 1 := addU16_eq (by omega)
      have h1 := ih (addU16 row 1) i (Nat.lt_of_succ_lt_succ hi)
        (by rw [hrow1]; omega)
      have heq : addU16 row 1 + i = row + (i + 1) := by
        rw [hrow1]
        omega
      rw [heq] at h1
      rw [drawLines_cons]
      exact List.mem_append.mpr (Or.inr h1)

lemma drawLines_row_lt (col w16 : Nat) (ls : List String) :
    ∀ (row : Nat), row < U16 →
      ∀ inst ∈ drawLines row col w16 ls, inst.row < U16 := by
  induction ls with
  | nil =>
    intro row _ inst h
    simp [drawLines] at h
  | cons line rest ih =>
    intro row hrow inst h
    rw [drawLines_cons] at h
    rcases List.mem_append.mp h with h1 | h2
    · rcases List.mem_append.mp h1 with h3 | h4
      · simp only [draw_margins, List.mem_cons, List.not_mem_nil, or_false] at h3
        rcases h3 with rfl | rfl <;> exact hrow
      · simp only [List.mem_cons, List.not_mem_nil, or_false] at h4
        subst h4
        exact hrow
    · exact ih (addU16 row 1) (addU16_lt _ _) inst h2

lemma draw_text_layout_row_lt (width : Nat) (bw : Bool) (label : String)
    (lines : List String) :
    ∀ inst ∈ draw_text_layout width bw label lines, inst.row < U16 := by
  intro inst h
  unfold draw_text_layout at h
  rcases List.mem_append.mp h with h1 | hdl
  · rcases List.mem_append.mp h1 with h2 | hlow
    · rcases List.mem_append.mp h2 with hban | hup
      · simp only [List.mem_cons, List.not_mem_nil, or_false] at hban
        rcases hban with rfl | rfl | rfl | rfl | rfl <;> simp [Instr.row, U16]
      · simp only [draw_margins, List.mem_cons, List.not_mem_nil, or_false] at hup
        rcases hup with rfl | rfl <;> simp [Instr.row, U16]
    · simp only [draw_margins, List.mem_cons, List.not_mem_nil, or_false] at hlow
      rcases hlow with rfl | rfl <;> exact addU16_lt _ _
  · exact drawLines_row_lt _ _ _ _ (addU16_lt _ _) inst hdl

/-- C8 (amended): provided the adapter-produced line sequence is short
enough that the `u16` row arithmetic does not wrap (length + 8 at most
2^16), the upper margin rule sits on row 6, the text lines occupy the
consecutive rows 7, 8, ..., 6 + length (so row 6 immediately precedes
the first text row) and the lower margin rule sits on row
6 + length + 1, one row below the last text line. For longer
sequences the `lines.len() as u16` cast wraps, see the
counterexample. -/
theorem C8_vertical_layout (width : Nat) (bw : Bool) (label : String)
    (lines : List String) (hL : lines.length + 8 ≤ U16) :
    Instr.margin 6 2 '┌' ∈ draw_text_layout width bw label lines ∧
    (∀ (i : Nat) (hi : i < lines.length),
        Instr.text (7 + i) 3 (lines.get ⟨i, hi⟩) ∈
          draw_text_layout width bw label lines) ∧
    Instr.margin (6 + lines.length + 1) 2 '└' ∈
      draw_text_layout width bw label lines := by
  have h7 : addU16 6 1 = 7 := by decide
  have hL16 : lines.length % U16 = lines.length := mod_U16_eq (by omega)
  refine ⟨?_, ?_, ?_⟩
  · unfold draw_text_layout
    refine List.mem_append.mpr (Or.inl (List.mem_append.mpr
      (Or.inl (List.mem_append.mpr (Or.inr ?_)))))
    rw [← subOneU16_three]
    simp [draw_margins]
  · intro i hi
    have h1 := drawLines_mem_row 3 (width % U16) lines (addU16 6 1) i hi
      (by rw [h7]; omega)
    have heq : addU16 6 1 + i = 7 + i := by rw [h7]
    rw [heq] at h1
    unfold draw_text_layout
    exact List.mem_append.mpr (Or.inr h1)
  · have hfin : addU16 (addU16 6 (lines.length % U16)) 1 = 6 + lines.length + 1 := by
      rw [hL16, addU16_eq (show 6 + lines.length < U16 by omega)]
      exact addU16_eq (by omega)
    unfold draw_text_layout
    refine List.mem_append.mpr (Or.inl (List.mem_append.mpr (Or.inr ?_)))
    rw [← hfin, ← subOneU16_three]
    simp [draw_margins]

theorem C8_vertical_layout_w :
    Instr.margin 6 2 '┌' ∈ draw_text_layout 4 false "HyphenSplitter" ["ab", "cd"] ∧
    (∀ (i : Nat) (hi : i < (["ab", "cd"] : List String).length),
        Instr.text (7 + i) 3 ((["ab", "cd"] : List String).get ⟨i, hi⟩) ∈
          draw_text_layout 4 false "HyphenSplitter" ["ab", "cd"]) ∧
    Instr.margin (6 + (["ab", "cd"] : List String).length + 1) 2 '└' ∈
      draw_text_layout 4 false "HyphenSplitter" ["ab", "cd"] :=
  C8_vertical_layout 4 false "HyphenSplitter" ["ab", "cd"] (by decide)

/-- Counterexample to C8 as stated: for an adapter output of 65536
lines, `lines.len() as u16` truncates to 0, so the lower margin rule
is drawn on row 6 + 0 + 1 = 7 (above almost all of the text), and no
instruction at all is issued for the claimed row
6 + 65536 + 1 = 65543 (every row the renderer emits is less than
2^16). -/
theorem C8_vertical_layout_cex :
    Instr.margin 7 2 '└' ∈
      draw_text_layout 20 false "HyphenSplitter" (List.replicate 65536 "") ∧
    ∀ inst ∈ draw_text_layout 20 false "HyphenSplitter" (List.replicate 65536 ""),
      inst.row ≠ 6 + (List.replicate (65536 : Nat) "").length + 1 := by
  constructor
  · unfold draw_text_layout
    refine List.mem_append.mpr (Or.inl (List.mem_append.mpr (Or.inr ?_)))
    have h1 : (List.replicate (65536 : Nat) "").length % U16 = 0 := by
      rw [List.length_replicate]
      decide
    have h2 : addU16 (addU16 6 0) 1 = 7 := by decide
    rw [h1, h2]
    simp only [draw_margins, List.mem_cons, List.not_mem_nil, or_false]
    refine Or.inl ?_
    rw [subOneU16_three]
  · intro inst h
    have hlt := draw_text_layout_row_lt _ _ _ _ inst h
    have hU : U16 = 65536 := rfl
    rw [hU] at hlt
    have hlen : (6 : Nat) + (List.replicate (65536 : Nat) "").length + 1 = 65543 := by
      rw [List.length_replicate]
    rw [hlen]
    omega

/-- The wrapping configuration carried by the `Wrapper` value of the
demo: the wrap width (a `usize`), the break_words flag, and the
active word-splitting policy (an opaque value, modelled by the index
it was registered under). -/
structure Wrapper where
  width : Nat
  break_words : Bool
  splitter : Nat
deriving DecidableEq

/-- Modelled from the spec: `Wrapper::splitter` is code of this
repository that is outside the sources under verification (only its
callers, the splitter-changer closures of `examples/interactive.rs`,
are). Per the spec, each splitter-changer closure rebuilds the
wrapper from the existing one, replacing only the word-splitting
policy, so width and break_words are carried over unchanged. -/
def Wrapper.withSplitter (w : Wrapper) (s : Nat) : Wrapper :=
  { w with splitter := s }

/-- The mutable state of the input/update loop of `unix_only::main`:
the active splitter's label, the `Wrapper` options, the text buffer
(a growable sequence of characters), and the position of the cycling
index iterator `idx_iter` over `(0..splitters.len()).cycle()`; at
position `p` the iterator's next element is `p % n`. -/
structure AppState where
  label : String
  options : Wrapper
  text : List Char
  iterPos : Nat
deriving DecidableEq

/-- Key events, following the `match` arms of `unix_only::main`:
escape, the two arrow keys, Ctrl combinations, printable characters,
backspace, and a catch-all for every other key the terminal can
report (Up, Down, Home, function keys, ...). -/
inductive Key where
  | esc : Key
  | left : Key
  | right : Key
  | ctrl (c : Char) : Key
  | char (c : Char) : Key
  | backspace : Key
  | other (code : Nat) : Key
deriving DecidableEq

/-- One iteration of the event loop of `unix_only::main` (lines
195-213) without the redraw: `none` means the loop terminates (Esc or
Ctrl-c), `some st` is the updated state. `ls` and `sp` are the label
and splitter registries built at start-up. -/
def step (ls : List String) (sp : List Nat) (st : AppState) : Key → Option AppState
  | .esc => none
  | .left =>
      some { st with options := { st.options with
        width := saturating_sub st.options.width 1 } }
  | .right =>
      some { st with options := { st.options with
        width := saturating_add st.options.width 1 } }
  | .ctrl c =>
      if c = 'c' then none
      else if c = 'b' then
        some { st with options := { st.options with
          break_words := !st.options.break_words } }
      else if c = 's' then
        some { st with
          options := st.options.withSplitter (sp.getD (st.iterPos % sp.length) 0),
          label := ls.getD (st.iterPos % sp.length) "",
          iterPos := st.iterPos + 1 }
      else some st
  | .char c => some { st with text := st.text ++ [c] }
  | .backspace => some { st with text := st.text.dropLast }
  | .other _ => some st

/-- Runs the event loop over a finite list of key events. -/
def run (ls : List String) (sp : List Nat) (st : AppState) : List Key → Option AppState
  | [] => some st
  | k :: ks =>
      match step ls sp st k with
      | none => none
      | some st' => run ls sp st' ks

/-- Models the full `draw_text` function: wrap call (delegated to the
opaque external algorithm `wrapAlg`), adapter post-processing, and
layout. -/
def draw_text (wrapAlg : Nat → Bool → Nat → List Char → List String)
    (text : List Char) (options : Wrapper) (label : String) : List Instr :=
  draw_text_layout options.width options.break_words label
    (wrapAdapter (wrapAlg options.width options.break_words options.splitter text))

/-- The frame `draw_text` renders for a given loop state. -/
def renderFrame (wrapAlg : Nat → Bool → Nat → List Char → List String)
    (st : AppState) : List Instr :=
  draw_text wrapAlg st.text st.options st.label

/-- One full iteration of the event loop: the state transition
followed by the unconditional redraw (`draw_text` runs after every
non-quit event, whether or not the event changed anything). -/
def loopBody (wrapAlg : Nat → Bool → Nat → List Char → List String)
    (ls : List String) (sp : List Nat) (st : AppState) (k : Key) :
    Option (AppState × List Instr) :=
  match step ls sp st k with
  | none => none
  | some st' => some (st', renderFrame wrapAlg st')

/-- The two splitter labels registered at start-up (without the
optional hyphenation-dictionary entry, whose registration is gated on
a cargo feature and on the dictionary loading successfully). -/
def demoLabels : List String := ["HyphenSplitter", "NoHyphenation"]

/-- The splitter policies registered at start-up, by identity. -/
def demoSplitters : List Nat := [0, 1]

/-- The demo sentence the text buffer is pre-populated with. -/
def demoText : List Char :=
  "Welcome to the interactive word-wrapping demo! Use the arrow keys to change the line length and try typing your own text!".data

/-- The start-up state of the loop: width 20, break_words false, the
first registered splitter active, and the index iterator already
advanced once (its first element, index 0, was consumed to select the
start-up splitter). -/
def initialState : AppState :=
  { label := "HyphenSplitter",
    options := { width := 20, break_words := false, splitter := 0 },
    text := demoText,
    iterPos := 1 }

/-- A start-up state whose width was brought down to 0. -/
def zeroWidthState : AppState :=
  { initialState with options := { initialState.options with width := 0 } }

/-- A start-up state whose text buffer is empty. -/
def emptyTextState : AppState :=
  { initialState with text := [] }

/-- C4: the decrease-width key sets the width to its saturating
decrement with floor 0 (in particular, from width 0 it leaves the
width at 0 rather than wrapping to a large value), and the
increase-width key sets it to its saturating increment. -/
theorem C4_width_saturation (ls : List String) (sp : List Nat) (st : AppState) :
    (∃ st', step ls sp st Key.left = some st' ∧
        st'.options.width = saturating_sub st.options.width 1 ∧
        st'.options.width = st.options.width - 1) ∧
    (st.options.width = 0 →
        ∃ st', step ls sp st Key.left = some st' ∧ st'.options.width = 0) ∧
    (∃ st', step ls sp st Key.right = some st' ∧
        st'.options.width = saturating_add st.options.width 1) := by
  refine ⟨⟨_, rfl, rfl, rfl⟩, fun h => ⟨_, rfl, ?_⟩, ⟨_, rfl, rfl⟩⟩
  simp [saturating_sub, h]

theorem C4_width_saturation_w :
    zeroWidthState.options.width = 0 ∧
    (∃ st', step demoLabels demoSplitters zeroWidthState Key.left = some st' ∧
        st'.options.width = 0) ∧
    (∃ st', step demoLabels demoSplitters zeroWidthState Key.right = some st' ∧
        st'.options.width = saturating_add zeroWidthState.options.width 1) :=
  ⟨rfl,
    (C4_width_saturation demoLabels demoSplitters zeroWidthState).2.1 rfl,
    (C4_width_saturation demoLabels demoSplitters zeroWidthState).2.2⟩

/-- C6: the toggle-break-words event (Ctrl-b) replaces break_words by
its logical negation, so toggling twice restores the original value
(involution). -/
theorem C6_toggle_involution (ls : List String) (sp : List Nat) (st : AppState) :
    ∃ st1 st2,
      step ls sp st (Key.ctrl 'b') = some st1 ∧
      st1.options.break_words = !st.options.break_words ∧
      step ls sp st1 (Key.ctrl 'b') = some st2 ∧
      st2.options.break_words = st.options.break_words := by
  refine ⟨_, _, rfl, rfl, rfl, ?_⟩
  simp

/-- C7: backspace removes exactly the last character of a non-empty
text buffer; on an empty buffer it is a no-op (the state is returned
unchanged, with no underflow); and appending 5 characters to an
initially-empty buffer followed by 7 backspaces leaves the buffer
empty without any failure. -/
theorem C7_backspace (ls : List String) (sp : List Nat) (st : AppState) :
    (∀ h : st.text ≠ [], ∃ st', step ls sp st Key.backspace = some st' ∧
        st'.text = st.text.dropLast ∧
        st'.text.length + 1 = st.text.length ∧
        st'.text ++ [st.text.getLast h] = st.text) ∧
    (st.text = [] → step ls sp st Key.backspace = some st) ∧
    (st.text = [] → ∀ c1 c2 c3 c4 c5 : Char,
        ∃ st', run ls sp st
          [Key.char c1, Key.char c2, Key.char c3, Key.char c4, Key.char c5,
           Key.backspace, Key.backspace, Key.backspace, Key.backspace,
           Key.backspace, Key.backspace, Key.backspace] = some st' ∧
          st'.text = []) := by
  obtain ⟨lab, opts, txt, pos⟩ := st
  refine ⟨fun h => ⟨_, rfl, rfl, ?_, ?_⟩, fun h => ?_, fun h c1 c2 c3 c4 c5 => ?_⟩
  · have hpos : 0 < txt.length := List.length_pos.mpr h
    simp only [List.length_dropLast]
    omega
  · exact List.dropLast_append_getLast h
  · have h' : txt = [] := h
    subst h'
    rfl
  · have h' : txt = [] := h
    subst h'
    exact ⟨_, rfl, rfl⟩

theorem C7_backspace_w :
    emptyTextState.text = [] ∧
    step demoLabels demoSplitters emptyTextState Key.backspace = some emptyTextState ∧
    (∃ st', run demoLabels demoSplitters emptyTextState
        [Key.char 'h', Key.char 'e', Key.char 'l', Key.char 'l', Key.char 'o',
         Key.backspace, Key.backspace, Key.backspace, Key.backspace,
         Key.backspace, Key.backspace, Key.backspace] = some st' ∧
        st'.text = []) :=
  ⟨rfl,
    (C7_backspace demoLabels demoSplitters emptyTextState).2.1 rfl,
    (C7_backspace demoLabels demoSplitters emptyTextState).2.2 rfl 'h' 'e' 'l' 'l' 'o'⟩

/-- C9: every key event other than a quit signal, an arrow key,
Ctrl-b, Ctrl-s, a printable character and backspace (that is, any
other Ctrl combination and any other named key) leaves the whole
state (wrap configuration, text buffer and splitter selection)
unchanged, and the loop still performs the unconditional redraw of
the current state. -/
theorem C9_other_events_noop
    (wrapAlg : Nat → Bool → Nat → List Char → List String)
    (ls : List String) (sp : List Nat) (st : AppState) (c : Char) (n : Nat)
    (hc : c ≠ 'c' ∧ c ≠ 'b' ∧ c ≠ 's') :
    loopBody wrapAlg ls sp st (Key.ctrl c) = some (st, renderFrame wrapAlg st) ∧
    loopBody wrapAlg ls sp st (Key.other n) = some (st, renderFrame wrapAlg st) := by
  obtain ⟨h1, h2, h3⟩ := hc
  constructor
  · simp [loopBody, step, h1, h2, h3]
  · rfl

theorem C9_other_events_noop_w :
    (('x' : Char) ≠ 'c' ∧ ('x' : Char) ≠ 'b' ∧ ('x' : Char) ≠ 's') ∧
    loopBody (constWrap []) demoLabels demoSplitters initialState (Key.ctrl 'x') =
      some (initialState, renderFrame (constWrap []) initialState) ∧
    loopBody (constWrap []) demoLabels demoSplitters initialState (Key.other 0) =
      some (initialState, renderFrame (constWrap []) initialState) :=
  ⟨by decide,
    C9_other_events_noop (constWrap []) demoLabels demoSplitters initialState 'x' 0
      (by decide)⟩

/-- C10: the cycle-splitter event (Ctrl-s) changes only the active
splitter policy and its label; because the splitter-changer closure
rebuilds the wrapper from the existing one, the current width and
break_words values (and the text buffer) are carried over unchanged
into the new wrapper. -/
theorem C10_cycle_preserves_config (ls : List String) (sp : List Nat)
    (st : AppState) (_hsp : 0 < sp.length) :
    ∃ st', step ls sp st (Key.ctrl 's') = some st' ∧
      st'.options.width = st.options.width ∧
      st'.options.break_words = st.options.break_words ∧
      st'.text = st.text ∧
      st'.options.splitter = sp.getD (st.iterPos % sp.length) 0 ∧
      st'.label = ls.getD (st.iterPos % sp.length) "" := by
  exact ⟨_, rfl, rfl, rfl, rfl, rfl, rfl⟩

theorem C10_cycle_preserves_config_w :
    0 < demoSplitters.length ∧
    ∃ st', step demoLabels demoSplitters initialState (Key.ctrl 's') = some st' ∧
      st'.options.width = initialState.options.width ∧
      st'.options.break_words = initialState.options.break_words ∧
      st'.text = initialState.text ∧
      st'.options.splitter =
        demoSplitters.getD (initialState.iterPos % demoSplitters.length) 0 ∧
      st'.label = demoLabels.getD (initialState.iterPos % demoSplitters.length) "" :=
  ⟨by decide,
    C10_cycle_preserves_config demoLabels demoSplitters initialState (by decide)⟩

lemma run_ctrlS_succ (ls : List String) (sp : List Nat) :
    ∀ (k : Nat) (st : AppState), ∃ st',
      run ls sp st (List.replicate (k + 1) (Key.ctrl 's')) = some st' ∧
      st'.iterPos = st.iterPos + (k + 1) ∧
      st'.options.width = st.options.width ∧
      st'.options.break_words = st.options.break_words ∧
      st'.text = st.text ∧
      st'.label = ls.getD ((st.iterPos + k) % sp.length) "" ∧
      st'.options.splitter = sp.getD ((st.iterPos + k) % sp.length) 0 := by
  intro k
  induction k with
  | zero =>
    intro st
    refine ⟨_, rfl, rfl, rfl, rfl, rfl, ?_, ?_⟩ <;> simp [Wrapper.withSplitter]
  | succ k ih =>
    intro st
    obtain ⟨st', hrun, hpos, hw, hb, ht, hlab, hspl⟩ := ih
      { st with
        options := st.options.withSplitter (sp.getD (st.iterPos % sp.length) 0),
        label := ls.getD (st.iterPos % sp.length) "",
        iterPos := st.iterPos + 1 }
    have hpos' : st'.iterPos = st.iterPos + 1 + (k + 1) := hpos
    have hlab' : st'.label = ls.getD ((st.iterPos + 1 + k) % sp.length) "" := hlab
    have hspl' : st'.options.splitter =
        sp.getD ((st.iterPos + 1 + k) % sp.length) 0 := hspl
    have harith : st.iterPos + 1 + k = st.iterPos + (k + 1) := by omega
    rw [harith] at hlab' hspl'
    refine ⟨st', ?_, ?_, hw, hb, ht, hlab', hspl'⟩
    · rw [List.replicate_succ]
      exact hrun
    · rw [hpos']
      omega

/-- C5: for a splitter registry of size n at least 1, and any loop
state that was produced by at least one advance of the cycling index
iterator (as every reachable state is: start-up consumes the
iterator's first element), performing exactly n cycle-splitter events
returns the selection (label and splitter policy) to the original
entry; each full cycle visits the entries in the same order (the
entry selected by the (j+1)-st advance equals the entry selected by
the (j+1)-st advance one full cycle later); and every index the
iterator hands out is in range (it cycles modulo n). -/
theorem C5_cycle_registry (ls : List String) (sp : List Nat) (st : AppState)
    (hn : 0 < sp.length) (p : Nat)
    (hpos : st.iterPos = p + 1)
    (hlab : st.label = ls.getD (p % sp.length) "")
    (hspl : st.options.splitter = sp.getD (p % sp.length) 0) :
    (∃ st', run ls sp st (List.replicate sp.length (Key.ctrl 's')) = some st' ∧
      st'.label = st.label ∧
      st'.options.splitter = st.options.splitter ∧
      st'.iterPos = st.iterPos + sp.length ∧
      (∀ j : Nat, ∃ stj stj',
        run ls sp st (List.replicate (j + 1) (Key.ctrl 's')) = some stj ∧
        run ls sp st' (List.replicate (j + 1) (Key.ctrl 's')) = some stj' ∧
        stj'.label = stj.label ∧
        stj'.options.splitter = stj.options.splitter)) ∧
    (∀ j : Nat, (st.iterPos + j) % sp.length < sp.length) := by
  constructor
  · obtain ⟨st', hrun, hpos', hw, hb, ht, hlab', hspl'⟩ :=
      run_ctrlS_succ ls sp (sp.length - 1) st
    have hn1 : sp.length - 1 + 1 = sp.length := Nat.succ_pred_eq_of_pos hn
    rw [hn1] at hrun hpos'
    have hidx : st.iterPos + (sp.length - 1) = p + sp.length := by omega
    rw [hidx, Nat.add_mod_right] at hlab' hspl'
    refine ⟨st', hrun, ?_, ?_, by rw [hpos'], ?_⟩
    · rw [hlab', hlab]
    · rw [hspl', hspl]
    · intro j
      obtain ⟨stj, hrunj, _, _, _, _, hlabj, hsplj⟩ := run_ctrlS_succ ls sp j st
      obtain ⟨stj', hrunj', _, _, _, _, hlabj', hsplj'⟩ := run_ctrlS_succ ls sp j st'
      have hshift : st'.iterPos + j = st.iterPos + j + sp.length := by omega
      rw [hshift, Nat.add_mod_right] at hlabj' hsplj'
      refine ⟨stj, stj', hrunj, hrunj', ?_, ?_⟩
      · rw [hlabj', hlabj]
      · rw [hsplj', hsplj]
  · intro j
    exact Nat.mod_lt _ hn

theorem C5_cycle_registry_w :
    0 < demoSplitters.length ∧
    initialState.iterPos = 0 + 1 ∧
    initialState.label = demoLabels.getD (0 % demoSplitters.length) "" ∧
    initialState.options.splitter = demoSplitters.getD (0 % demoSplitters.length) 0 ∧
    ((∃ st', run demoLabels demoSplitters initialState
        (List.replicate demoSplitters.length (Key.ctrl 's')) = some st' ∧
      st'.label = initialState.label ∧
      st'.options.splitter = initialState.options.splitter ∧
      st'.iterPos = initialState.iterPos + demoSplitters.length ∧
      (∀ j : Nat, ∃ stj stj',
        run demoLabels demoSplitters initialState
          (List.replicate (j + 1) (Key.ctrl 's')) = some stj ∧
        run demoLabels demoSplitters st'
          (List.replicate (j + 1) (Key.ctrl 's')) = some stj' ∧
        stj'.label = stj.label ∧
        stj'.options.splitter = stj.options.splitter)) ∧
    (∀ j : Nat, (initialState.iterPos + j) % demoSplitters.length <
      demoSplitters.length)) :=
  ⟨by decide, rfl, rfl, rfl,
    C5_cycle_registry demoLabels demoSplitters initialState (by decide) 0 rfl rfl rfl⟩

end Interactive
